import Mathlib

/-!
# confluence-to-markdown: the export pipeline of `main.go`

A shallow embedding of the pure parts of `main.go` (`sanitizeFilename`,
`findImageURLs`, the directory name built in `main`) and of its two effectful
loops (`downloadImages`, the page loop of `main`), followed by theorems about
them.

## Modelling conventions

* A Go `string` is an immutable sequence of bytes: `GoString := List Byte`,
  `Byte := Fin 256`.  String literals of the source are written with `str`,
  which UTF-8 encodes a Lean string literal.
* Go `int` is 64 bit; every integer computed here is bounded by the length of a
  string held in memory, so no overflow can occur and `Int` is used.
* Library functions (`strings.Index`, `strings.ReplaceAll`, `filepath.Base`,
  slicing) are modelled after their documented behaviour; slicing is checked
  and yields `none` where Go panics.
* Loops that the source writes as `for { ... }` are run with a fuel counter;
  running out of fuel is a separate outcome, never confused with a result.
* Library calls with effects (HTTP, JSON decoding, HTML conversion, file
  system) are fields of an environment record over an abstract world state;
  the functions of `main.go` that use them are translated in full, and every
  effect is logged to a trace.
-/

namespace Confluence

/-! ## Strings -/

/-- One byte of a Go string. -/
abbrev Byte := Fin 256

/-- A Go string: a sequence of bytes. -/
abbrev GoString := List Byte

/-- UTF-8 encoding of one code point (as Go stores the characters of a string
literal). -/
def utf8 (c : Nat) : List Byte :=
  if c < 0x80 then [Fin.ofNat c]
  else if c < 0x800 then [Fin.ofNat (0xC0 + c / 64), Fin.ofNat (0x80 + c % 64)]
  else if c < 0x10000 then
    [Fin.ofNat (0xE0 + c / 4096), Fin.ofNat (0x80 + c / 64 % 64), Fin.ofNat (0x80 + c % 64)]
  else
    [Fin.ofNat (0xF0 + c / 262144 % 8), Fin.ofNat (0x80 + c / 4096 % 64),
     Fin.ofNat (0x80 + c / 64 % 64), Fin.ofNat (0x80 + c % 64)]

/-- The bytes of a list of characters. -/
def encode (cs : List Char) : GoString := cs.flatMap (fun c => utf8 c.toNat)

/-- The Go string written as the literal `s`. -/
def str (s : String) : GoString := encode s.toList

/-- Offset of the first occurrence of `substr` in `s`, if there is one. -/
def indexNat : GoString → GoString → Option Nat
  | [], substr => if substr.isPrefixOf [] then some 0 else none
  | c :: t, substr =>
    if substr.isPrefixOf (c :: t) then some 0 else (indexNat t substr).map (· + 1)

/-- Go `strings.Index(s, substr)`: the index of the first instance of `substr`
in `s`, or `-1` if `substr` is not present in `s`. -/
def Index (s substr : GoString) : Int :=
  match indexNat s substr with
  | some i => (i : Int)
  | none => -1

/-- Worker of `ReplaceAll`: scans `s` left to right; the counter is the number
of bytes of a replaced instance of `old` still to be skipped. -/
def replaceFrom (old new : GoString) : Nat → GoString → GoString
  | _, [] => []
  | skip + 1, _ :: t => replaceFrom old new skip t
  | 0, c :: t =>
    if old.isPrefixOf (c :: t) then new ++ replaceFrom old new (old.length - 1) t
    else c :: replaceFrom old new 0 t

/-- Go `strings.ReplaceAll(s, old, new)`: a copy of `s` with all non-overlapping
instances of `old` replaced by `new`, for a non-empty `old` (every call in
`main.go` passes a one-byte `old`; the library's treatment of an empty `old`,
insertion at rune boundaries, is not covered). -/
def ReplaceAll (s old new : GoString) : GoString := replaceFrom old new 0 s

/-- Go `s[lo:]`; `none` where Go panics (`lo` outside `0 ..= len(s)`). -/
def sliceFrom (s : GoString) (lo : Int) : Option GoString :=
  if 0 ≤ lo ∧ lo ≤ (s.length : Int) then some (s.drop lo.toNat) else none

/-- Go `s[lo:hi]`; `none` where Go panics (unless `0 ≤ lo ≤ hi ≤ len(s)`). -/
def slice (s : GoString) (lo hi : Int) : Option GoString :=
  if 0 ≤ lo ∧ lo ≤ hi ∧ hi ≤ (s.length : Int) then
    some ((s.drop lo.toNat).take (hi - lo).toNat)
  else none

/-! ## `sanitizeFilename` -/

/-- The slice `invalidChars` of `sanitizeFilename`. -/
def invalidChars : List GoString :=
  [str "/", str "\\", str ":", str "*", str "?", str "\"", str "<", str ">", str "|"]

/-- `sanitizeFilename` of `main.go`: one `strings.ReplaceAll` per entry of
`invalidChars`, in order, each replacing by `"_"`. -/
def sanitizeFilename (name : GoString) : GoString :=
  invalidChars.foldl (fun name char => ReplaceAll name char (str "_")) name

/-- The directory name built in `main`:
`fmt.Sprintf("%s(%s)", sanitizeFilename(page.Title), pageID)`. -/
def pageDirName (title pageID : GoString) : GoString :=
  sanitizeFilename title ++ str "(" ++ pageID ++ str ")"

/-- How a run of a function that loops ends. -/
inductive Run (α : Type) where
  /-- The function returned `a`. -/
  | returned (a : α) : Run α
  /-- The function panicked on a slice expression. -/
  | panicked : Run α
  /-- The loop was still running when the fuel was used up. -/
  | outOfFuel : Run α
  deriving DecidableEq, Repr

/-! ## `findImageURLs` -/

/-- The constant `startTag` of `findImageURLs`. -/
def startTag : GoString := str "<img src=\""

/-- The constant `endTag` of `findImageURLs`. -/
def endTag : GoString := str "\""

/-- What one pass through the body of the `for` loop does. -/
inductive Step where
  /-- One of the two `break` statements was reached. -/
  | done : Step
  /-- A slice expression was out of range. -/
  | panic : Step
  /-- The pass appended `url` and left `startIdx` for the next pass. -/
  | next (url : GoString) (startIdx : Int) : Step
  deriving DecidableEq, Repr

/-- One pass through the loop body of `findImageURLs`, entered with the given
value of the variable `startIdx`. -/
def loopBody (content : GoString) (startIdx : Int) : Step :=
  match sliceFrom content startIdx with
  | none => .panic
  | some rest =>
    -- startIdx = strings.Index(content[startIdx:], startTag)
    let startIdx := Index rest startTag
    if startIdx = -1 then .done
    else
      -- startIdx += len(startTag)
      let startIdx := startIdx + (startTag.length : Int)
      match sliceFrom content startIdx with
      | none => .panic
      | some rest =>
        -- endIdx := strings.Index(content[startIdx:], endTag)
        let endIdx := Index rest endTag
        if endIdx = -1 then .done
        else
          -- imgURL := content[startIdx : startIdx+endIdx]
          match slice content startIdx (startIdx + endIdx) with
          | none => .panic
          | some imgURL => .next imgURL (startIdx + endIdx)

/-- The `for` loop of `findImageURLs`, run for at most `fuel` passes from the
loop state `(startIdx, urls)`. -/
def findImageURLsLoop (content : GoString) : Nat → Int → List GoString → Run (List GoString)
  | 0, _, _ => .outOfFuel
  | fuel + 1, startIdx, urls =>
    match loopBody content startIdx with
    | .done => .returned urls
    | .panic => .panicked
    | .next imgURL startIdx => findImageURLsLoop content fuel startIdx (urls ++ [imgURL])

/-- `findImageURLs` of `main.go`, run for at most `fuel` passes of its loop:
`urls` starts empty and `startIdx` at `0`. -/
def findImageURLs (fuel : Nat) (content : GoString) : Run (List GoString) :=
  findImageURLsLoop content fuel 0 []

/-- The values the variable `startIdx` takes at the head of the loop. -/
inductive Reach (content : GoString) : Int → Prop where
  | init : Reach content 0
  | pass {s s' : Int} {url : GoString} :
      Reach content s → loopBody content s = .next url s' → Reach content s'

/-! ## Effects -/

/-- An HTTP response as the program sees it. -/
structure Response where
  /-- Status code of the response. -/
  status : Nat
  /-- Body of the response. -/
  body : GoString
  deriving DecidableEq, Repr

/-- The fields of `ConfluencePage` the program reads. -/
structure ConfluencePage where
  /-- Field `Title`. -/
  Title : GoString
  /-- Field `Body.Storage.Value`. -/
  Value : GoString
  deriving DecidableEq, Repr

/-- An argument of `fmt.Printf`. -/
inductive Arg where
  | s (v : GoString) : Arg
  | d (v : Int) : Arg
  deriving DecidableEq, Repr

/-- An effect performed by the program, in the order performed. -/
inductive Event where
  /-- `client.R()...Get(url)` in `downloadImages`. -/
  | get (url : GoString) : Event
  /-- `os.Create(path)`. -/
  | create (path : GoString) : Event
  /-- `io.Copy` of a response body into the file created at `path`. -/
  | copy (path body : GoString) : Event
  /-- `fmt.Printf(format, args...)` or `fmt.Println`. -/
  | printf (format : GoString) (args : List Arg) : Event
  /-- Call of `fetchConfluencePage` for a page identifier (its one request). -/
  | fetchConfluencePage (pageID : GoString) : Event
  /-- Call of `ensureDir` (its one `os.MkdirAll`). -/
  | ensureDir (dir : GoString) : Event
  /-- Call of `saveMarkdown`. -/
  | saveMarkdown (outputDir title content : GoString) : Event
  /-- Call of `downloadImages`. -/
  | downloadImages (outputDir content : GoString) : Event
  /-- `file.WriteString(content)` on the file created at `path`. -/
  | writeString (path content : GoString) : Event
  deriving DecidableEq, Repr

/-- Go `filepath.Base` on a system whose path separator is `/` and that has no
volume names: the last element of the path, trailing slashes removed first;
`"."` for the empty path and `"/"` for a path of slashes only. -/
def Base (path : GoString) : GoString :=
  if path = [] then str "."
  else
    let path := (path.reverse.dropWhile (· = 47)).reverse
    let path := (path.reverse.takeWhile (· ≠ 47)).reverse
    if path = [] then str "/" else path

/-- The library calls `downloadImages` makes, over a world state `σ`.  An error
is the text of a Go `error`. -/
structure Env (σ : Type) where
  /-- The resty request `client.R().SetBasicAuth(email, apiToken)
  .SetDoNotParseResponse(true).Get(url)`: an error when the request could not
  be carried out, otherwise the response, whatever its status. -/
  get : (url email apiToken : GoString) → σ → Except GoString Response × σ
  /-- Go `os.Create(path)`: `some err` on failure. -/
  create : (path : GoString) → σ → Option GoString × σ
  /-- Go `io.Copy(outFile, resp.RawBody())` for the file created at `path`:
  `some err` on failure. -/
  copy : (path body : GoString) → σ → Option GoString × σ
  /-- Go `filepath.Join` of two elements. -/
  join : GoString → GoString → GoString

/-- One pass through the `for ... range imageURLs` loop of `downloadImages`. -/
def downloadImage {σ : Type} (env : Env σ) (outputDir email apiToken imgURL : GoString)
    (st : σ) : List Event × σ :=
  let fileName := Base imgURL
  let outputPath := env.join outputDir fileName
  match env.get imgURL email apiToken st with
  | (.error err, st) =>
    ([.get imgURL, .printf (str "Failed to download image %s: %v\n") [.s imgURL, .s err]], st)
  | (.ok resp, st) =>
    match env.create outputPath st with
    | (some err, st) =>
      ([.get imgURL, .create outputPath,
        .printf (str "Failed to save image %s: %v\n") [.s imgURL, .s err]], st)
    | (none, st) =>
      match env.copy outputPath resp.body st with
      | (some err, st) =>
        ([.get imgURL, .create outputPath, .copy outputPath resp.body,
          .printf (str "Failed to write image %s: %v\n") [.s imgURL, .s err]], st)
      | (none, st) =>
        ([.get imgURL, .create outputPath, .copy outputPath resp.body], st)

/-- The `for ... range imageURLs` loop of `downloadImages`. -/
def downloadImagesLoop {σ : Type} (env : Env σ) (outputDir email apiToken : GoString) :
    List GoString → σ → List Event × σ
  | [], st => ([], st)
  | imgURL :: rest, st =>
    let r := downloadImage env outputDir email apiToken imgURL st
    let r' := downloadImagesLoop env outputDir email apiToken rest r.2
    (r.1 ++ r'.1, r'.2)

/-- `downloadImages` of `main.go`: scans `content`, then downloads each URL
found; it returns the error `nil` (`none`) whenever it returns. -/
def downloadImages {σ : Type} (fuel : Nat) (env : Env σ)
    (outputDir content apiURL email apiToken : GoString) (st : σ) :
    Run (Option GoString × List Event × σ) :=
  match findImageURLs fuel content with
  | .returned imageURLs =>
    let r := downloadImagesLoop env outputDir email apiToken imageURLs st
    .returned (none, r.1, r.2)
  | .panicked => .panicked
  | .outOfFuel => .outOfFuel

/-- The parts of the resty response that `fetchConfluencePage` reads. -/
structure PageResponse where
  /-- Value of `resp.StatusCode()`. -/
  StatusCode : Nat
  /-- Value of `resp.Status()`, such as `404 Not Found`. -/
  Status : GoString
  /-- Value of `resp.Body()`. -/
  Body : GoString
  deriving DecidableEq, Repr

/-- The library calls of the whole program: those of `downloadImages` and those
of `fetchConfluencePage`, `ensureDir` and `saveMarkdown`. -/
structure PageEnv (σ : Type) extends Env σ where
  /-- The resty request of `fetchConfluencePage`, `client.R().SetBasicAuth(email,
  apiToken).SetHeader(...).SetQueryParams(...).Get(url)`: an error when the
  request could not be carried out, otherwise the response, whatever its
  status. -/
  getPage : (url email apiToken : GoString) → σ → Except GoString PageResponse × σ
  /-- Go `json.Unmarshal(body, &page)`. -/
  unmarshal : (body : GoString) → Except GoString ConfluencePage
  /-- Go `os.MkdirAll(dir, os.ModePerm)`: `some err` on failure. -/
  mkdirAll : (dir : GoString) → σ → Option GoString × σ
  /-- The converter of `htmlToMarkdown` (GitHub flavoured, with tables):
  `converter.ConvertString(htmlContent)`. -/
  convertString : (htmlContent : GoString) → Except GoString GoString
  /-- Go `file.WriteString(content)` on the file created at `path`: `some err`
  on failure. -/
  writeString : (path content : GoString) → σ → Option GoString × σ

/-- `ensureDir` of `main.go`. -/
def ensureDir {σ : Type} (env : PageEnv σ) (dir : GoString) (st : σ) : Option GoString × σ :=
  env.mkdirAll dir st

/-- `fetchConfluencePage` of `main.go`: the request to
`apiURL/content/pageID`, the test of the status code against `200`, and the
decoding of the body. -/
def fetchConfluencePage {σ : Type} (env : PageEnv σ) (apiURL email apiToken pageID : GoString)
    (st : σ) : Except GoString ConfluencePage × σ :=
  match env.getPage (apiURL ++ str "/content/" ++ pageID) email apiToken st with
  | (.error err, st) => (.error err, st)
  | (.ok resp, st) =>
    if resp.StatusCode ≠ 200 then
      (.error (str "failed to fetch page " ++ pageID ++ str ": " ++ resp.Status), st)
    else
      match env.unmarshal resp.Body with
      | .error err => (.error (str "failed to parse response: " ++ err), st)
      | .ok page => (.ok page, st)

/-- `htmlToMarkdown` of `main.go`. -/
def htmlToMarkdown {σ : Type} (env : PageEnv σ) (htmlContent : GoString) :
    Except GoString GoString :=
  env.convertString htmlContent

/-- `saveMarkdown` of `main.go`: converts `content`, creates
`outputDir/sanitizeFilename(title).md` and writes the Markdown into it.
Returns the error (`none` for `nil`), the effects performed and the state. -/
def saveMarkdown {σ : Type} (env : PageEnv σ) (outputDir title content : GoString) (st : σ) :
    Option GoString × List Event × σ :=
  match htmlToMarkdown env content with
  | .error err => (some err, [], st)
  | .ok markdownContent =>
    let filePath := env.join outputDir (sanitizeFilename title ++ str ".md")
    match env.create filePath st with
    | (some err, st) => (some err, [.create filePath], st)
    | (none, st) =>
      match env.writeString filePath markdownContent st with
      | (err, st) => (err, [.create filePath, .writeString filePath markdownContent], st)

/-- One pass through the `for idx, pageID := range pageIDs` loop of `main`:
the effects performed, and the state the pass returns with, unless the scan
inside `downloadImages` panics or is still running when `fuel` is used up. -/
def pagePass {σ : Type} (fuel : Nat) (env : PageEnv σ)
    (backupDir apiURL email apiToken : GoString) (idx : Nat) (pageID : GoString) (st : σ) :
    List Event × Run σ :=
  let e0 := Event.printf (str "Fetching page %d: %s\n") [.d ((idx : Int) + 1), .s pageID]
  match fetchConfluencePage env apiURL email apiToken pageID st with
  | (.error err, st) =>
    ([e0, .fetchConfluencePage pageID,
      .printf (str "Error fetching page %s: %v\n") [.s pageID, .s err]], .returned st)
  | (.ok page, st) =>
    let pageDir := env.join backupDir (pageDirName page.Title pageID)
    match ensureDir env pageDir st with
    | (some err, st) =>
      ([e0, .fetchConfluencePage pageID, .ensureDir pageDir,
        .printf (str "Error creating directory %s: %v\n") [.s pageDir, .s err]], .returned st)
    | (none, st) =>
      match saveMarkdown env pageDir page.Title page.Value st with
      | (some err, evs, st) =>
        ([e0, .fetchConfluencePage pageID, .ensureDir pageDir,
          .saveMarkdown pageDir page.Title page.Value] ++ evs ++
          [.printf (str "Error saving markdown for page %s: %v\n") [.s pageID, .s err]],
         .returned st)
      | (none, evs, st) =>
        let e1 := Event.printf (str "Saved markdown to %s/%s.md\n")
          [.s pageDir, .s (sanitizeFilename page.Title)]
        let done := [e0, .fetchConfluencePage pageID, .ensureDir pageDir,
          .saveMarkdown pageDir page.Title page.Value] ++ evs ++
          [e1, .downloadImages pageDir page.Value]
        match downloadImages fuel env.toEnv pageDir page.Value apiURL email apiToken st with
        | .returned (some err, evs', st) =>
          (done ++ evs' ++
            [.printf (str "Error downloading images for page %s: %v\n") [.s pageID, .s err]],
           .returned st)
        | .returned (none, evs', st) => (done ++ evs', .returned st)
        | .panicked => (done, .panicked)
        | .outOfFuel => (done, .outOfFuel)

/-- The `for idx, pageID := range pageIDs` loop of `main`, entered at index
`idx` with the identifiers still to be visited: the effects performed, and how
the loop ends.  A pass that does not return ends the loop there. -/
def pageLoop {σ : Type} (fuel : Nat) (env : PageEnv σ)
    (backupDir apiURL email apiToken : GoString) :
    Nat → List GoString → σ → List Event × Run σ
  | _, [], st => ([], .returned st)
  | idx, pageID :: rest, st =>
    match pagePass fuel env backupDir apiURL email apiToken idx pageID st with
    | (evs, .returned st) =>
      let r := pageLoop fuel env backupDir apiURL email apiToken (idx + 1) rest st
      (evs ++ r.1, r.2)
    | (evs, .panicked) => (evs, .panicked)
    | (evs, .outOfFuel) => (evs, .outOfFuel)

/-- The page identifiers for which `fetchConfluencePage` was called, in the
order of the calls. -/
def fetchCalls (trace : List Event) : List GoString :=
  trace.filterMap (fun e => match e with
    | .fetchConfluencePage pageID => some pageID
    | _ => none)

/-- The URLs requested by `downloadImages`, in the order of the requests. -/
def getCalls (trace : List Event) : List GoString :=
  trace.filterMap (fun e => match e with
    | .get url => some url
    | _ => none)

/-- The paths of the files created, in the order of creation. -/
def createCalls (trace : List Event) : List GoString :=
  trace.filterMap (fun e => match e with
    | .create path => some path
    | _ => none)

/-! ## Specification-side definitions -/

/-- Spec-side: the offsets at which `sub` occurs in `s`, in increasing order. -/
def occurrences (s sub : GoString) : List Nat :=
  (List.range (s.length + 1)).filter (fun i => sub.isPrefixOf (s.drop i))

/-- Spec-side: the nine disallowed characters `/ \ : * ? " < > |` as bytes. -/
def disallowedBytes : List Byte := [47, 92, 58, 42, 63, 34, 60, 62, 124]

/-- Spec-side: the per-byte map that sends a disallowed byte to `_`. -/
def sanitizeByteSpec (b : Byte) : Byte := if b ∈ disallowedBytes then 95 else b

/-- Spec-side: the nine disallowed characters. -/
def disallowedChars : List Char := ['/', '\\', ':', '*', '?', '"', '<', '>', '|']

/-- Spec-side: the per-character map that sends a disallowed character to `_`. -/
def sanitizeCharSpec (c : Char) : Char := if c ∈ disallowedChars then '_' else c

/-! ## Page bodies used as concrete inputs -/

/-- The page body with two well-formed image tags on which the scan returns a
wrong second URL. -/
def twoImages : GoString := str "<img src=\"a\"><img src=\"b\">"

/-- The page body with two well-formed image tags, one per paragraph, on which
the scan does not return. -/
def twoParagraphs : GoString :=
  str "<p><img src=\"http://x/a.png\"></p><p><img src=\"http://x/b.png\"></p>"

/-! ## Concrete environments -/

/-- An environment in which every asset request is answered with `resp`, every
file operation succeeds, and `filepath.Join` acts as it does on two clean
relative elements. -/
def answeringEnv (resp : Response) : Env Unit where
  get := fun _ _ _ st => (.ok resp, st)
  create := fun _ st => (none, st)
  copy := fun _ _ st => (none, st)
  join := fun dir name => dir ++ str "/" ++ name

/-- The response body the page API sends for the two-paragraph page. -/
def twoParagraphsJSON : GoString :=
  str ("\x7b\"title\":\"My/Page\",\"body\":\x7b\"storage\":\x7b\"value\":" ++
    "\"<p><img src=\\\"http://x/a.png\\\"></p><p><img src=\\\"http://x/b.png\\\"></p>\"" ++
    "\x7d\x7d\x7d")

/-- An environment in which the page API answers every page request with
`200 OK` and the page titled `My/Page` whose body is the two-paragraph page,
the converter yields the Markdown text `md`, every asset request is answered
with `200` and two bytes, and every file operation succeeds. -/
def twoParagraphsSite (md : GoString) : PageEnv Unit where
  toEnv := answeringEnv ⟨200, [0xFF, 0xD8]⟩
  getPage := fun _ _ _ st => (.ok ⟨200, str "200 OK", twoParagraphsJSON⟩, st)
  unmarshal := fun body =>
    if body = twoParagraphsJSON then .ok ⟨str "My/Page", twoParagraphs⟩
    else .error (str "unexpected end of JSON input")
  mkdirAll := fun _ st => (none, st)
  convertString := fun _ => .ok md
  writeString := fun _ _ st => (none, st)

/-! ## Lemmas on `strings.Index` -/

theorem indexNat_isSome_of_prefix_drop (sub : GoString) :
    ∀ (s : GoString) (i : Nat), sub <+: s.drop i → ∃ k, indexNat s sub = some k ∧ k ≤ i := by
  intro s
  induction s with
  | nil =>
    intro i h
    simp only [List.drop_nil] at h
    exact ⟨0, by simp [indexNat, List.isPrefixOf_iff_prefix, h], Nat.zero_le _⟩
  | cons c t ih =>
    intro i h
    by_cases hp : sub <+: c :: t
    · exact ⟨0, by simp [indexNat, List.isPrefixOf_iff_prefix, hp], Nat.zero_le _⟩
    · cases i with
      | zero => exact absurd h hp
      | succ j =>
        obtain ⟨k, hk, hkj⟩ := ih j (by simpa using h)
        exact ⟨k + 1, by simp [indexNat, List.isPrefixOf_iff_prefix, hp, hk], by omega⟩

theorem indexNat_some_spec (sub : GoString) :
    ∀ (s : GoString) (k : Nat), indexNat s sub = some k →
      sub <+: s.drop k ∧ k + sub.length ≤ s.length ∧ ∀ j, j < k → ¬ sub <+: s.drop j := by
  intro s
  induction s with
  | nil =>
    intro k h
    by_cases hp : sub <+: ([] : GoString)
    · have hk : k = 0 := by
        simp [indexNat, List.isPrefixOf_iff_prefix, hp] at h; omega
      subst hk
      have : sub = [] := List.prefix_nil.mp hp
      subst this
      simp
    · simp [indexNat, List.isPrefixOf_iff_prefix, hp] at h
  | cons c t ih =>
    intro k h
    by_cases hp : sub <+: c :: t
    · have hk : k = 0 := by
        simp [indexNat, List.isPrefixOf_iff_prefix, hp] at h; omega
      subst hk
      exact ⟨by simpa using hp, by simpa using hp.length_le, by simp⟩
    · simp only [indexNat, List.isPrefixOf_iff_prefix, hp, if_false, Option.map_eq_some'] at h
      obtain ⟨a, ha, rfl⟩ := h
      obtain ⟨h1, h2, h3⟩ := ih a ha
      refine ⟨by simpa using h1, by simp; omega, ?_⟩
      intro j hj
      cases j with
      | zero => simpa using hp
      | succ j => simpa using h3 j (by omega)

theorem indexNat_eq_some_of_first (s sub : GoString) (i : Nat)
    (h : sub <+: s.drop i) (hmin : ∀ j, j < i → ¬ sub <+: s.drop j) :
    indexNat s sub = some i := by
  obtain ⟨k, hk, hki⟩ := indexNat_isSome_of_prefix_drop sub s i h
  rcases Nat.lt_or_ge k i with hlt | hge
  · exact absurd (indexNat_some_spec sub s k hk).1 (hmin k hlt)
  · have : k = i := by omega
    rw [← this]; exact hk

theorem infix_iff_prefix_drop (s sub : GoString) :
    sub <:+: s ↔ ∃ i, i ≤ s.length ∧ sub <+: s.drop i := by
  constructor
  · rintro ⟨a, b, rfl⟩
    refine ⟨a.length, by simp, ?_⟩
    simp [List.append_assoc]
  · rintro ⟨i, _, hp⟩
    exact hp.isInfix.trans (List.drop_suffix i s).isInfix

theorem indexNat_eq_none_iff (s sub : GoString) :
    indexNat s sub = none ↔ ¬ sub <:+: s := by
  constructor
  · intro h hin
    obtain ⟨i, _, hp⟩ := (infix_iff_prefix_drop s sub).mp hin
    obtain ⟨k, hk, _⟩ := indexNat_isSome_of_prefix_drop sub s i hp
    rw [h] at hk; cases hk
  · intro h
    cases hk : indexNat s sub with
    | none => rfl
    | some k =>
      exfalso; apply h
      have := (indexNat_some_spec sub s k hk)
      exact (infix_iff_prefix_drop s sub).mpr ⟨k, by omega, this.1⟩

theorem Index_eq_neg_one_iff (s sub : GoString) : Index s sub = -1 ↔ indexNat s sub = none := by
  unfold Index
  cases indexNat s sub with
  | none => simp
  | some k => simp

theorem Index_of_some {s sub : GoString} {k : Nat} (h : indexNat s sub = some k) :
    Index s sub = (k : Int) := by
  simp [Index, h]

theorem mem_occurrences (s sub : GoString) (i : Nat) :
    i ∈ occurrences s sub ↔ i ≤ s.length ∧ sub <+: s.drop i := by
  simp [occurrences, List.isPrefixOf_iff_prefix, Nat.lt_succ_iff]

/-! ## Lemmas on `sanitizeFilename` -/

theorem replaceFrom_single (c r : Byte) (s : GoString) :
    replaceFrom [c] [r] 0 s = s.map (fun b => if b = c then r else b) := by
  induction s with
  | nil => rfl
  | cons b t ih =>
    by_cases h : b = c
    · subst h
      simp [replaceFrom, List.isPrefixOf, ih]
    · have h' : ¬ c = b := fun e => h e.symm
      simp [replaceFrom, List.isPrefixOf, ih, h, h']

theorem invalidChars_eq : invalidChars = disallowedBytes.map (fun c => [c]) := by decide

theorem underscore_eq : str "_" = [95] := by decide

theorem foldl_ReplaceAll_single (cs : List Byte) (h : (95 : Byte) ∉ cs) :
    ∀ name : GoString,
      cs.foldl (fun name c => ReplaceAll name [c] [95]) name =
        name.map (fun b => if b ∈ cs then 95 else b) := by
  induction cs with
  | nil => intro name; simp
  | cons c cs ih =>
    intro name
    have hc : (95 : Byte) ≠ c := fun e => h (by simp [e])
    have hcs : (95 : Byte) ∉ cs := fun e => h (by simp [e])
    rw [List.foldl_cons, ih hcs, ReplaceAll, replaceFrom_single, List.map_map]
    apply List.map_congr_left
    intro b _
    by_cases hb : b = c
    · simp [hb, hcs]
    · simp [hb]

theorem sanitizeFilename_eq_map (name : GoString) :
    sanitizeFilename name = name.map sanitizeByteSpec := by
  unfold sanitizeFilename
  rw [invalidChars_eq, underscore_eq, List.foldl_map]
  exact foldl_ReplaceAll_single disallowedBytes (by decide) name

theorem sanitizeByteSpec_not_mem (b : Byte) : sanitizeByteSpec b ∉ disallowedBytes := by
  unfold sanitizeByteSpec
  by_cases h : b ∈ disallowedBytes
  · rw [if_pos h]; decide
  · rw [if_neg h]; exact h

theorem sanitizeByteSpec_of_not_mem {b : Byte} (h : b ∉ disallowedBytes) :
    sanitizeByteSpec b = b := by
  unfold sanitizeByteSpec
  rw [if_neg h]

theorem sanitizeByteSpec_idem (b : Byte) :
    sanitizeByteSpec (sanitizeByteSpec b) = sanitizeByteSpec b :=
  sanitizeByteSpec_of_not_mem (sanitizeByteSpec_not_mem b)

theorem byte_not_disallowed_of_ge (n : Nat) (h1 : 128 ≤ n) (h2 : n < 256) :
    (Fin.ofNat n : Byte) ∉ disallowedBytes := by
  simp only [disallowedBytes, List.mem_cons, List.mem_singleton, List.not_mem_nil, or_false,
    Fin.ext_iff, Fin.ofNat]
  have : n % 256 = n := Nat.mod_eq_of_lt h2
  simp only [Nat.reduceAdd, this]
  omega

theorem utf8_map_sanitize (c : Char) :
    (utf8 c.toNat).map sanitizeByteSpec = utf8 (sanitizeCharSpec c).toNat := by
  by_cases hc : c ∈ disallowedChars
  · have hs : sanitizeCharSpec c = '_' := by simp [sanitizeCharSpec, hc]
    rw [hs]
    simp only [disallowedChars, List.mem_cons, List.mem_singleton, List.not_mem_nil,
      or_false] at hc
    rcases hc with h | h | h | h | h | h | h | h | h <;> subst h <;> decide
  · have hs : sanitizeCharSpec c = c := by simp [sanitizeCharSpec, hc]
    rw [hs]
    have hid : ∀ b ∈ utf8 c.toNat, sanitizeByteSpec b = b := by
      intro b hb
      apply sanitizeByteSpec_of_not_mem
      by_cases hlt : c.toNat < 128
      · have hb' : b = Fin.ofNat c.toNat := by simpa [utf8, hlt] using hb
        intro hmem
        apply hc
        have hcn : c = Char.ofNat c.toNat := (Char.ofNat_toNat c).symm
        rw [hb'] at hmem
        simp only [disallowedBytes, List.mem_cons, List.mem_singleton, List.not_mem_nil,
          or_false, Fin.ext_iff, Fin.ofNat] at hmem
        have hm : c.toNat % 256 = c.toNat := Nat.mod_eq_of_lt (by omega)
        simp only [Nat.reduceAdd, hm] at hmem
        have h47 : ((47 : Byte) : Nat) = 47 := rfl
        have h92 : ((92 : Byte) : Nat) = 92 := rfl
        have h58 : ((58 : Byte) : Nat) = 58 := rfl
        have h42 : ((42 : Byte) : Nat) = 42 := rfl
        have h63 : ((63 : Byte) : Nat) = 63 := rfl
        have h34 : ((34 : Byte) : Nat) = 34 := rfl
        have h60 : ((60 : Byte) : Nat) = 60 := rfl
        have h62 : ((62 : Byte) : Nat) = 62 := rfl
        have h124 : ((124 : Byte) : Nat) = 124 := rfl
        rw [h47, h92, h58, h42, h63, h34, h60, h62, h124] at hmem
        rcases hmem with h | h | h | h | h | h | h | h | h <;>
          (rw [hcn, h]; decide)
      · unfold utf8 at hb
        rw [if_neg hlt] at hb
        split_ifs at hb <;>
          simp only [List.mem_cons, List.mem_singleton, List.not_mem_nil, or_false] at hb
        · rcases hb with h | h <;> subst h <;> apply byte_not_disallowed_of_ge <;> omega
        · rcases hb with h | h | h <;> subst h <;> apply byte_not_disallowed_of_ge <;> omega
        · rcases hb with h | h | h | h <;> subst h <;>
            apply byte_not_disallowed_of_ge <;> omega
    conv_rhs => rw [← List.map_id (utf8 c.toNat)]
    exact List.map_congr_left hid

theorem sanitizeFilename_encode (cs : List Char) :
    sanitizeFilename (encode cs) = encode (cs.map sanitizeCharSpec) := by
  rw [sanitizeFilename_eq_map]
  induction cs with
  | nil => rfl
  | cons c cs ih =>
    simp only [encode, List.flatMap_cons, List.map_append, List.map_cons] at ih ⊢
    rw [ih, utf8_map_sanitize]

/-! ## Lemmas on the loop of `findImageURLs` -/

theorem startTag_length : startTag.length = 10 := by decide

theorem endTag_eq : endTag = [34] := by decide

theorem endTag_length : endTag.length = 1 := by decide

theorem sliceFrom_natCast (s : GoString) (n : Nat) (h : n ≤ s.length) :
    sliceFrom s (n : Int) = some (s.drop n) := by
  unfold sliceFrom
  rw [if_pos ⟨Int.natCast_nonneg n, by exact_mod_cast h⟩]
  simp

theorem slice_natCast (s : GoString) (n m : Nat) (h : n + m ≤ s.length) :
    slice s (n : Int) ((n : Int) + (m : Int)) = some ((s.drop n).take m) := by
  unfold slice
  rw [if_pos ⟨Int.natCast_nonneg n, by omega, by exact_mod_cast h⟩]
  simp

/-- The loop body in terms of natural-number offsets: what a pass entered with
an in-range `startIdx = n` does. -/
theorem loopBody_natCast (content : GoString) (n : Nat) (hn : n ≤ content.length) :
    loopBody content (n : Int) =
      match indexNat (content.drop n) startTag with
      | none => .done
      | some i =>
        match indexNat (content.drop (i + 10)) endTag with
        | none => .done
        | some e => .next ((content.drop (i + 10)).take e) ((i + 10 + e : Nat) : Int) := by
  unfold loopBody
  rw [sliceFrom_natCast content n hn]
  cases hi : indexNat (content.drop n) startTag with
  | none =>
    have hI : Index (content.drop n) startTag = -1 := (Index_eq_neg_one_iff _ _).mpr hi
    simp [hI]
  | some i =>
    have hspec := indexNat_some_spec startTag _ i hi
    have hlen : i + 10 ≤ content.length := by
      have := hspec.2.1
      rw [startTag_length, List.length_drop] at this
      omega
    have hcast : ((i : Int) + ((startTag.length : Nat) : Int)) = ((i + 10 : Nat) : Int) := by
      rw [startTag_length]; push_cast; rfl
    have hne : ¬ ((i : Int) = -1) := by omega
    simp only [Index_of_some hi, hne, if_false, hcast]
    rw [sliceFrom_natCast content (i + 10) hlen]
    cases he : indexNat (content.drop (i + 10)) endTag with
    | none =>
      have hI : Index (content.drop (i + 10)) endTag = -1 := (Index_eq_neg_one_iff _ _).mpr he
      simp [hI]
    | some e =>
      have hspec2 := indexNat_some_spec endTag _ e he
      have hlen2 : i + 10 + e ≤ content.length := by
        have := hspec2.2.1
        rw [List.length_drop] at this
        omega
      have hne2 : ¬ ((e : Int) = -1) := by omega
      simp only [Index_of_some he, hne2, if_false]
      rw [slice_natCast content (i + 10) e hlen2]
      simp

theorem loopBody_next_bound (content : GoString) (n : Nat) (hn : n ≤ content.length)
    (url : GoString) (s' : Int) (h : loopBody content (n : Int) = .next url s') :
    ∃ m : Nat, s' = (m : Int) ∧ m ≤ content.length := by
  rw [loopBody_natCast content n hn] at h
  cases hi : indexNat (content.drop n) startTag with
  | none => simp [hi] at h
  | some i =>
    cases he : indexNat (content.drop (i + 10)) endTag with
    | none => simp [hi, he] at h
    | some e =>
      simp only [hi, he, Step.next.injEq] at h
      have hspec := indexNat_some_spec startTag _ i hi
      have hspec2 := indexNat_some_spec endTag _ e he
      refine ⟨i + 10 + e, h.2.symm, ?_⟩
      have h1 := hspec.2.1
      have h2 := hspec2.2.1
      rw [List.length_drop] at h1 h2
      rw [startTag_length] at h1
      rw [endTag_length] at h2
      omega

theorem loopBody_ne_panic (content : GoString) (n : Nat) (hn : n ≤ content.length) :
    loopBody content (n : Int) ≠ .panic := by
  rw [loopBody_natCast content n hn]
  split
  · simp
  · split <;> simp

theorem reach_bound (content : GoString) (s : Int) (h : Reach content s) :
    ∃ n : Nat, s = (n : Int) ∧ n ≤ content.length := by
  induction h with
  | init => exact ⟨0, rfl, Nat.zero_le _⟩
  | pass _ hstep ih =>
    obtain ⟨n, rfl, hn⟩ := ih
    exact loopBody_next_bound content n hn _ _ hstep

theorem findImageURLsLoop_ne_panicked (content : GoString) :
    ∀ (fuel n : Nat) (urls : List GoString), n ≤ content.length →
      findImageURLsLoop content fuel (n : Int) urls ≠ .panicked := by
  intro fuel
  induction fuel with
  | zero => intro n urls _; simp [findImageURLsLoop]
  | succ fuel ih =>
    intro n urls hn
    unfold findImageURLsLoop
    cases hb : loopBody content (n : Int) with
    | done => simp
    | panic => exact absurd hb (loopBody_ne_panic content n hn)
    | next url s' =>
      obtain ⟨m, rfl, hm⟩ := loopBody_next_bound content n hn url s' hb
      exact ih m _ hm

/-! ## Theorems on `sanitizeFilename` and the directory name -/

/-- C3: `sanitizeFilename` is the character-by-character map that sends each of
the nine characters `/ \ : * ? " < > |` to `_` and every other character to
itself, on the bytes of the name and on its (possibly non-ASCII) characters
alike; so the output has the length of the input, holds none of the nine
characters, and has at every position the image of the input's character at
that position. -/
theorem sanitizeFilename_charwise (name : GoString) :
    sanitizeFilename name = name.map sanitizeByteSpec ∧
    (∀ cs : List Char, sanitizeFilename (encode cs) = encode (cs.map sanitizeCharSpec)) ∧
    (sanitizeFilename name).length = name.length ∧
    (sanitizeFilename name).filter (fun b => b ∈ disallowedBytes) = [] ∧
    (∀ i : Nat, (sanitizeFilename name)[i]? =
      (name[i]?).map (fun b => if b ∈ disallowedBytes then 95 else b)) := by
  refine ⟨sanitizeFilename_eq_map name, sanitizeFilename_encode, ?_, ?_, ?_⟩
  · rw [sanitizeFilename_eq_map, List.length_map]
  · rw [sanitizeFilename_eq_map, List.filter_eq_nil_iff]
    intro b hb
    obtain ⟨a, _, rfl⟩ := List.mem_map.mp hb
    simpa using sanitizeByteSpec_not_mem a
  · intro i
    rw [sanitizeFilename_eq_map, List.getElem?_map]
    rfl

/-- C4: `sanitizeFilename` is idempotent, and maps the empty string to the
empty string. -/
theorem sanitizeFilename_idempotent :
    (∀ x : GoString, sanitizeFilename (sanitizeFilename x) = sanitizeFilename x) ∧
    sanitizeFilename (str "") = str "" := by
  refine ⟨?_, by decide⟩
  intro x
  rw [sanitizeFilename_eq_map, sanitizeFilename_eq_map, List.map_map]
  apply List.map_congr_left
  intro b _
  exact sanitizeByteSpec_idem b

theorem append_paren_cancel (x y a b : GoString) (hx : (40 : Byte) ∉ x) (hy : (40 : Byte) ∉ y)
    (h : x ++ 40 :: a = y ++ 40 :: b) : x = y := by
  induction x generalizing y with
  | nil =>
    cases y with
    | nil => rfl
    | cons c y =>
      simp only [List.nil_append, List.cons_append, List.cons.injEq] at h
      exact absurd (by simp [h.1]) hy
  | cons d x ih =>
    cases y with
    | nil =>
      simp only [List.nil_append, List.cons_append, List.cons.injEq] at h
      exact absurd (by simp [h.1]) hx
    | cons c y =>
      simp only [List.cons_append, List.cons.injEq] at h
      rw [h.1, ih y (fun e => hx (List.mem_cons_of_mem _ e))
        (fun e => hy (List.mem_cons_of_mem _ e)) h.2]

theorem paren_infix_iff (l : GoString) : str "(" <:+: l ↔ (40 : Byte) ∈ l := by
  have : str "(" = [40] := by decide
  rw [this]
  constructor
  · rintro ⟨a, b, rfl⟩; simp
  · intro h
    obtain ⟨a, b, rfl⟩ := List.append_of_mem h
    exact ⟨a, b, by simp⟩

/-- C5 as stated fails: two pages with distinct identifiers get the same
directory name, `A(1(2)`, when one title is `A(1` with identifier `2` and the
other title is `A` with identifier `1(2`. -/
theorem pageDirName_collision :
    ¬ ∀ t1 t2 id1 id2 : GoString, id1 ≠ id2 → pageDirName t1 id1 ≠ pageDirName t2 id2 := by
  intro h
  exact h (str "A(1") (str "A") (str "2") (str "1(2") (by decide) (by decide)

/-- C5, amended: for distinct page identifiers the directory names differ
whenever the two sanitized titles are equal (in particular for a shared title),
and for any titles whenever neither identifier contains the character `(`. -/
theorem pageDirName_ne_of_id_ne (t1 t2 id1 id2 : GoString) (hne : id1 ≠ id2)
    (h : sanitizeFilename t1 = sanitizeFilename t2 ∨
      (¬ str "(" <:+: id1 ∧ ¬ str "(" <:+: id2)) :
    pageDirName t1 id1 ≠ pageDirName t2 id2 := by
  intro heq
  apply hne
  unfold pageDirName at heq
  have hl : str "(" = [40] := by decide
  have hr : str ")" = [41] := by decide
  rw [hl, hr] at heq
  rcases h with h | ⟨h1, h2⟩
  · rw [h] at heq
    simp only [List.append_assoc, List.append_cancel_left_eq] at heq
    exact List.append_cancel_right heq
  · rw [paren_infix_iff] at h1 h2
    have hcong := congrArg List.reverse heq
    have hrev : id1.reverse ++ 40 :: (sanitizeFilename t1).reverse =
        id2.reverse ++ 40 :: (sanitizeFilename t2).reverse := by
      simpa using hcong
    have := append_paren_cancel id1.reverse id2.reverse _ _ (by simpa using h1)
      (by simpa using h2) hrev
    exact List.reverse_injective this

/-- Witness of C5 amended: the pages titled `My/Page` and `My:Page` with
identifiers `123` and `124`. -/
theorem pageDirName_ne_of_id_ne_witness :
    str "123" ≠ str "124" ∧
    (sanitizeFilename (str "My/Page") = sanitizeFilename (str "My:Page") ∨
      (¬ str "(" <:+: str "123" ∧ ¬ str "(" <:+: str "124")) ∧
    pageDirName (str "My/Page") (str "123") ≠ pageDirName (str "My:Page") (str "124") :=
  ⟨by decide, Or.inl (by decide),
    pageDirName_ne_of_id_ne (str "My/Page") (str "My:Page") (str "123") (str "124")
      (by decide) (Or.inl (by decide))⟩

/-! ## Theorems on `findImageURLs` -/

/-- C6: on a content that does not contain the marker `<img src="`, the scan
returns the empty sequence (at its first pass, whatever the fuel left). -/
theorem findImageURLs_no_marker (content : GoString) (h : ¬ startTag <:+: content)
    (fuel : Nat) : findImageURLs (fuel + 1) content = .returned [] := by
  have hb := loopBody_natCast content 0 (Nat.zero_le _)
  rw [List.drop_zero, (indexNat_eq_none_iff content startTag).mpr h] at hb
  simp only [findImageURLs, findImageURLsLoop]
  have hb' : loopBody content 0 = Step.done := by exact_mod_cast hb
  rw [hb']

/-- Witness of C6: the content `<p>no images here</p>`. -/
theorem findImageURLs_no_marker_witness :
    ¬ startTag <:+: str "<p>no images here</p>" ∧
    findImageURLs 1 (str "<p>no images here</p>") = .returned [] :=
  ⟨by decide, findImageURLs_no_marker (str "<p>no images here</p>") (by decide) 0⟩

theorem findImageURLsLoop_stuck (content : GoString) (s : Int) (url : GoString)
    (h : loopBody content s = .next url s) :
    ∀ (fuel : Nat) (urls : List GoString), findImageURLsLoop content fuel s urls = .outOfFuel := by
  intro fuel
  induction fuel with
  | zero => intro urls; rfl
  | succ fuel ih =>
    intro urls
    unfold findImageURLsLoop
    rw [h]
    exact ih _

/-- C1 fails on the code: on `<img src="a"><img src="b">` the scan returns
`a` and then `><img src=`, the text between the first tag and the second
marker, and with no amount of fuel the list `[a, b]`. -/
theorem findImageURLs_twoImages :
    findImageURLs 3 twoImages = .returned [str "a", str "><img src="] ∧
    ∀ fuel : Nat, findImageURLs fuel twoImages ≠ .returned [str "a", str "b"] := by
  have h0 : loopBody twoImages 0 = .next (str "a") 11 := by decide
  have h1 : loopBody twoImages 11 = .next (str "><img src=") 22 := by decide
  have h2 : loopBody twoImages 22 = .done := by decide
  refine ⟨by simp [findImageURLs, findImageURLsLoop, h0, h1, h2], ?_⟩
  intro fuel
  match fuel with
  | 0 => simp [findImageURLs, findImageURLsLoop]
  | 1 => simp [findImageURLs, findImageURLsLoop, h0]
  | 2 => simp [findImageURLs, findImageURLsLoop, h0, h1]
  | n + 3 =>
    simp only [findImageURLs, findImageURLsLoop, h0, h1, h2]
    decide

/-- C2 fails on the code: on the two-paragraph page the second pass of the loop
is entered with `startIdx = 27` and leaves `startIdx = 27`, appending
`/x/a.png`; the loop state repeats and no break is ever reached, whatever the
fuel. -/
theorem findImageURLs_twoParagraphs_diverges :
    loopBody twoParagraphs 0 = .next (str "http://x/a.png") 27 ∧
    loopBody twoParagraphs 27 = .next (str "/x/a.png") 27 ∧
    Reach twoParagraphs 27 ∧
    ∀ fuel : Nat, findImageURLs fuel twoParagraphs = .outOfFuel := by
  have h0 : loopBody twoParagraphs 0 = .next (str "http://x/a.png") 27 := by decide
  have h1 : loopBody twoParagraphs 27 = .next (str "/x/a.png") 27 := by decide
  refine ⟨h0, h1, Reach.pass Reach.init h0, ?_⟩
  intro fuel
  cases fuel with
  | zero => rfl
  | succ n =>
    simp only [findImageURLs, findImageURLsLoop, h0]
    exact findImageURLsLoop_stuck _ _ _ h1 n _

theorem Index_cases (s sub : GoString) :
    (Index s sub = -1 ∧ indexNat s sub = none) ∨
    ∃ k : Nat, Index s sub = (k : Int) ∧ indexNat s sub = some k ∧ k + sub.length ≤ s.length := by
  cases h : indexNat s sub with
  | none => exact Or.inl ⟨(Index_eq_neg_one_iff s sub).mpr h, rfl⟩
  | some k => exact Or.inr ⟨k, Index_of_some h, rfl, (indexNat_some_spec sub s k h).2.1⟩

/-- C10: `findImageURLs` never slices out of range.  No run panics; and at
every value `startIdx` takes at the head of the loop, `0 ≤ startIdx ≤
len(content)`, the pass does not panic, the second `content[startIdx:]` is
evaluated with `0 ≤ startIdx ≤ len(content)`, and `content[startIdx :
startIdx+endIdx]` with `startIdx ≤ startIdx+endIdx ≤ len(content)`. -/
theorem findImageURLs_slices_in_range (content : GoString) :
    (∀ fuel : Nat, findImageURLs fuel content ≠ .panicked) ∧
    ∀ s : Int, Reach content s →
      (0 ≤ s ∧ s ≤ (content.length : Int)) ∧
      loopBody content s ≠ .panic ∧
      ∀ rest : GoString, sliceFrom content s = some rest → Index rest startTag ≠ -1 →
        (0 ≤ Index rest startTag + (startTag.length : Int) ∧
          Index rest startTag + (startTag.length : Int) ≤ (content.length : Int)) ∧
        ∀ rest' : GoString,
          sliceFrom content (Index rest startTag + (startTag.length : Int)) = some rest' →
          Index rest' endTag ≠ -1 →
            Index rest startTag + (startTag.length : Int) ≤
              Index rest startTag + (startTag.length : Int) + Index rest' endTag ∧
            Index rest startTag + (startTag.length : Int) + Index rest' endTag ≤
              (content.length : Int) := by
  refine ⟨fun fuel => findImageURLsLoop_ne_panicked content fuel 0 [] (Nat.zero_le _), ?_⟩
  intro s hs
  obtain ⟨n, rfl, hn⟩ := reach_bound content s hs
  refine ⟨⟨Int.natCast_nonneg n, by exact_mod_cast hn⟩, loopBody_ne_panic content n hn, ?_⟩
  intro rest hrest hI
  rw [sliceFrom_natCast content n hn] at hrest
  cases hrest
  rcases Index_cases (content.drop n) startTag with ⟨h, _⟩ | ⟨i, hi, _, hlen⟩
  · exact absurd h hI
  · rw [hi, startTag_length]
    rw [startTag_length, List.length_drop] at hlen
    have hle : i + 10 ≤ content.length := by omega
    refine ⟨⟨by omega, by omega⟩, ?_⟩
    intro rest' hrest' hE
    have hc : ((i : Int) + ((10 : Nat) : Int)) = ((i + 10 : Nat) : Int) := by push_cast; rfl
    rw [hc, sliceFrom_natCast content (i + 10) hle] at hrest'
    cases hrest'
    rcases Index_cases (content.drop (i + 10)) endTag with ⟨h, _⟩ | ⟨e, he, _, hlen2⟩
    · exact absurd h hE
    · rw [he]
      rw [endTag_length, List.length_drop] at hlen2
      constructor <;> omega

/-- Witness of C10: the pass of the loop on the two-paragraph page that is
entered with `startIdx = 27`; its slices are `content[27:]`, `content[19:]` and
`content[19:27]` in a content of length 66. -/
theorem findImageURLs_slices_in_range_witness :
    Reach twoParagraphs 27 ∧
    sliceFrom twoParagraphs 27 = some (twoParagraphs.drop 27) ∧
    Index (twoParagraphs.drop 27) startTag ≠ -1 ∧
    sliceFrom twoParagraphs (Index (twoParagraphs.drop 27) startTag + (startTag.length : Int)) =
      some (twoParagraphs.drop 19) ∧
    Index (twoParagraphs.drop 19) endTag ≠ -1 ∧
    (Index (twoParagraphs.drop 27) startTag + (startTag.length : Int) ≤
        Index (twoParagraphs.drop 27) startTag + (startTag.length : Int) +
          Index (twoParagraphs.drop 19) endTag ∧
      Index (twoParagraphs.drop 27) startTag + (startTag.length : Int) +
          Index (twoParagraphs.drop 19) endTag ≤ (twoParagraphs.length : Int)) :=
  ⟨Reach.pass Reach.init
      (by decide : loopBody twoParagraphs 0 = Step.next (str "http://x/a.png") 27),
    by decide, by decide, by decide, by decide,
    (((findImageURLs_slices_in_range twoParagraphs).2 27
      (Reach.pass Reach.init
      (by decide : loopBody twoParagraphs 0 = Step.next (str "http://x/a.png") 27))).2.2
        (twoParagraphs.drop 27) (by decide) (by decide)).2
        (twoParagraphs.drop 19) (by decide) (by decide)⟩

theorem drop_append_left (a b : GoString) : (a ++ b).drop a.length = b := by
  simp

theorem downloadImage_calls {σ : Type} (env : Env σ)
    (outputDir email apiToken imgURL : GoString) (st : σ) :
    getCalls (downloadImage env outputDir email apiToken imgURL st).1 = [imgURL] ∧
    (createCalls (downloadImage env outputDir email apiToken imgURL st).1 = [] ∨
      createCalls (downloadImage env outputDir email apiToken imgURL st).1 =
        [env.join outputDir (Base imgURL)]) := by
  unfold downloadImage
  dsimp only
  repeat' split
  all_goals simp [getCalls, createCalls]

/-- C7: a content `pre ++ <img src=" ++ u ++ " ++ post` in which the marker
occurs exactly once, at offset `|pre|`, and whose `u` holds no `"`, is scanned
to `[u]` in two passes.  So `downloadImages` returns after exactly one request,
for `u`, and creates at most one file, named `filepath.Base(u)` in the output
directory; when the request, the creation and the copy succeed, its effects
are exactly: the request for `u`, the creation of that file, and the copy of
the response body into it. -/
theorem findImageURLs_single (pre u post : GoString)
    (hocc : occurrences (pre ++ startTag ++ u ++ endTag ++ post) startTag = [pre.length])
    (hu : ¬ endTag <:+: u) (fuel : Nat) :
    findImageURLs (fuel + 2) (pre ++ startTag ++ u ++ endTag ++ post) = .returned [u] ∧
    (∀ (σ : Type) (env : Env σ) (outputDir apiURL email apiToken : GoString) (st : σ),
      ∃ (trace : List Event) (st' : σ),
        downloadImages (fuel + 2) env outputDir (pre ++ startTag ++ u ++ endTag ++ post)
          apiURL email apiToken st = .returned (none, trace, st') ∧
        getCalls trace = [u] ∧
        (createCalls trace = [] ∨ createCalls trace = [env.join outputDir (Base u)])) ∧
    (∀ (σ : Type) (env : Env σ) (outputDir apiURL email apiToken : GoString)
      (resp : Response) (st st1 st2 st3 : σ),
      env.get u email apiToken st = (.ok resp, st1) →
      env.create (env.join outputDir (Base u)) st1 = (none, st2) →
      env.copy (env.join outputDir (Base u)) resp.body st2 = (none, st3) →
      downloadImages (fuel + 2) env outputDir (pre ++ startTag ++ u ++ endTag ++ post)
          apiURL email apiToken st =
        .returned (none,
          [.get u, .create (env.join outputDir (Base u)),
           .copy (env.join outputDir (Base u)) resp.body], st3)) := by
  have hmem := mem_occurrences (pre ++ startTag ++ u ++ endTag ++ post) startTag
  rw [hocc] at hmem
  simp only [List.mem_singleton] at hmem
  have hdrop1 : (pre ++ startTag ++ u ++ endTag ++ post).drop pre.length =
      startTag ++ (u ++ endTag ++ post) := by
    rw [show pre ++ startTag ++ u ++ endTag ++ post = pre ++ (startTag ++ (u ++ endTag ++ post))
      by simp [List.append_assoc]]
    exact drop_append_left _ _
  have hdrop2 : (pre ++ startTag ++ u ++ endTag ++ post).drop (pre.length + 10) =
      u ++ endTag ++ post := by
    rw [← List.drop_drop, hdrop1, ← startTag_length]
    exact drop_append_left _ _
  have hlen : (pre ++ startTag ++ u ++ endTag ++ post).length =
      pre.length + 10 + u.length + 1 + post.length := by
    simp only [List.length_append, startTag_length, endTag_length]
  -- first pass
  have hi : indexNat (pre ++ startTag ++ u ++ endTag ++ post) startTag = some pre.length := by
    apply indexNat_eq_some_of_first
    · rw [hdrop1]; exact List.prefix_append _ _
    · intro j hj hp
      have := (hmem j).mpr ⟨by omega, hp⟩
      omega
  have he : indexNat (u ++ endTag ++ post) endTag = some u.length := by
    apply indexNat_eq_some_of_first
    · rw [List.append_assoc, drop_append_left]; exact List.prefix_append _ _
    · intro j hj hp
      apply hu
      rw [endTag_eq] at hp ⊢
      rw [List.append_assoc, List.drop_append_of_le_length (Nat.le_of_lt hj)] at hp
      have hne : u.drop j ≠ [] := by
        intro e
        have := congrArg List.length e
        simp at this
        omega
      obtain ⟨c, t, hct⟩ := List.exists_cons_of_ne_nil hne
      rw [hct] at hp
      have hc : c = 34 := by
        obtain ⟨r, hr⟩ := hp
        simp at hr
        exact hr.1.symm
      have : [c] <:+: u := ⟨u.take j, t, by rw [List.append_assoc, List.singleton_append, ← hct,
        List.take_append_drop]⟩
      rwa [hc] at this
  have h0 : loopBody (pre ++ startTag ++ u ++ endTag ++ post) 0 =
      .next u ((pre.length + 10 + u.length : Nat) : Int) := by
    have := loopBody_natCast (pre ++ startTag ++ u ++ endTag ++ post) 0 (Nat.zero_le _)
    rw [List.drop_zero, hi] at this
    simp only [hdrop2, he] at this
    have ht : (u ++ endTag ++ post).take u.length = u := by
      rw [List.append_assoc]; exact List.take_left _ _
    rw [ht] at this
    exact_mod_cast this
  -- second pass
  have h1 : loopBody (pre ++ startTag ++ u ++ endTag ++ post)
      ((pre.length + 10 + u.length : Nat) : Int) = .done := by
    rw [loopBody_natCast _ _ (by omega)]
    have hn : indexNat ((pre ++ startTag ++ u ++ endTag ++ post).drop
        (pre.length + 10 + u.length)) startTag = none := by
      rw [indexNat_eq_none_iff, infix_iff_prefix_drop]
      rintro ⟨j, hj, hp⟩
      rw [List.drop_drop] at hp
      rw [List.length_drop] at hj
      have := (hmem (pre.length + 10 + u.length + j)).mpr ⟨by omega, hp⟩
      omega
    rw [hn]
  have hres : findImageURLs (fuel + 2) (pre ++ startTag ++ u ++ endTag ++ post) =
      .returned [u] := by
    simp only [findImageURLs, findImageURLsLoop, h0, h1, List.nil_append]
  refine ⟨hres, ?_, ?_⟩
  · intro σ env outputDir apiURL email apiToken st
    refine ⟨(downloadImage env outputDir email apiToken u st).1,
      (downloadImage env outputDir email apiToken u st).2, ?_,
      downloadImage_calls env outputDir email apiToken u st⟩
    simp only [downloadImages, hres, downloadImagesLoop, List.append_nil]
  · intro σ env outputDir apiURL email apiToken resp st st1 st2 st3 hget hcreate hcopy
    simp only [downloadImages, hres, downloadImagesLoop, downloadImage, hget, hcreate, hcopy,
      List.append_nil]

/-- Witness of C7: the page body `<p><img src="http://x/a.png"></p>` of
scenario B, with an asset endpoint that answers the bytes `FF D8`: the scan
yields the single URL, and the one file created and filled is `a.png`. -/
theorem findImageURLs_single_witness :
    occurrences (str "<p>" ++ startTag ++ str "http://x/a.png" ++ endTag ++ str "></p>")
      startTag = [(str "<p>").length] ∧
    ¬ endTag <:+: str "http://x/a.png" ∧
    str "<p>" ++ startTag ++ str "http://x/a.png" ++ endTag ++ str "></p>" =
      str "<p><img src=\"http://x/a.png\"></p>" ∧
    findImageURLs 2 (str "<p>" ++ startTag ++ str "http://x/a.png" ++ endTag ++ str "></p>") =
      .returned [str "http://x/a.png"] ∧
    downloadImages 2 (answeringEnv ⟨200, [0xFF, 0xD8]⟩) (str "backup/My_Page(123)")
        (str "<p>" ++ startTag ++ str "http://x/a.png" ++ endTag ++ str "></p>")
        (str "http://x/api") (str "me@x") (str "token") () =
      .returned (none,
        [.get (str "http://x/a.png"), .create (str "backup/My_Page(123)/a.png"),
         .copy (str "backup/My_Page(123)/a.png") [0xFF, 0xD8]], ()) :=
  ⟨by decide, by decide, by decide,
    (findImageURLs_single (str "<p>") (str "http://x/a.png") (str "></p>")
      (by decide) (by decide) 0).1,
    (findImageURLs_single (str "<p>") (str "http://x/a.png") (str "></p>")
      (by decide) (by decide) 0).2.2 Unit (answeringEnv ⟨200, [0xFF, 0xD8]⟩)
      (str "backup/My_Page(123)") (str "http://x/api") (str "me@x") (str "token")
      ⟨200, [0xFF, 0xD8]⟩ () () () () rfl rfl rfl⟩

/-! ## Theorems on the effectful loops -/

/-- C9 fails on the code: `downloadImages` never looks at the status of the
response.  For the single-image page of scenario B and an asset endpoint that
answers with any response `resp` (a `404` with body `Not Found`, say), it
creates `a.png`, copies the body of `resp` into it and prints nothing. -/
theorem downloadImages_ignores_status :
    (∀ resp : Response,
      downloadImages 2 (answeringEnv resp) (str "backup/My_Page(123)")
          (str "<p><img src=\"http://x/a.png\"></p>") (str "http://x/api") (str "me@x")
          (str "token") () =
        .returned (none,
          [.get (str "http://x/a.png"), .create (str "backup/My_Page(123)/a.png"),
           .copy (str "backup/My_Page(123)/a.png") resp.body], ())) ∧
    downloadImages 2 (answeringEnv ⟨404, str "Not Found"⟩) (str "backup/My_Page(123)")
        (str "<p><img src=\"http://x/a.png\"></p>") (str "http://x/api") (str "me@x")
        (str "token") () =
      .returned (none,
        [.get (str "http://x/a.png"), .create (str "backup/My_Page(123)/a.png"),
         .copy (str "backup/My_Page(123)/a.png") (str "Not Found")], ()) := by
  have hscan : findImageURLs 2 (str "<p><img src=\"http://x/a.png\"></p>") =
      .returned [str "http://x/a.png"] := by decide
  have hbase : Base (str "http://x/a.png") = str "a.png" := by decide
  have hpath : str "backup/My_Page(123)" ++ str "/" ++ str "a.png" =
      str "backup/My_Page(123)/a.png" := by decide
  have key : ∀ resp : Response,
      downloadImages 2 (answeringEnv resp) (str "backup/My_Page(123)")
          (str "<p><img src=\"http://x/a.png\"></p>") (str "http://x/api") (str "me@x")
          (str "token") () =
        .returned (none,
          [.get (str "http://x/a.png"), .create (str "backup/My_Page(123)/a.png"),
           .copy (str "backup/My_Page(123)/a.png") resp.body], ()) := by
    intro resp
    simp only [downloadImages, hscan, downloadImagesLoop, downloadImage, answeringEnv, hbase,
      hpath, List.append_nil]
  exact ⟨key, key _⟩

theorem findImageURLs_twoParagraphs_outOfFuel (fuel : Nat) :
    findImageURLs fuel twoParagraphs = .outOfFuel := by
  have h0 : loopBody twoParagraphs 0 = .next (str "http://x/a.png") 27 := by decide
  have h1 : loopBody twoParagraphs 27 = .next (str "/x/a.png") 27 := by decide
  cases fuel with
  | zero => rfl
  | succ n =>
    simp only [findImageURLs, findImageURLsLoop, h0]
    exact findImageURLsLoop_stuck _ _ _ h1 n _

theorem fetchCalls_append (a b : List Event) :
    fetchCalls (a ++ b) = fetchCalls a ++ fetchCalls b := by
  simp [fetchCalls, List.filterMap_append]

theorem fetchCalls_saveMarkdown {σ : Type} (env : PageEnv σ)
    (outputDir title content : GoString) (st : σ) :
    fetchCalls (saveMarkdown env outputDir title content st).2.1 = [] := by
  unfold saveMarkdown
  dsimp only
  repeat' split
  all_goals rfl

theorem fetchCalls_downloadImage {σ : Type} (env : Env σ)
    (outputDir email apiToken imgURL : GoString) (st : σ) :
    fetchCalls (downloadImage env outputDir email apiToken imgURL st).1 = [] := by
  unfold downloadImage
  dsimp only
  repeat' split
  all_goals rfl

theorem fetchCalls_downloadImagesLoop {σ : Type} (env : Env σ)
    (outputDir email apiToken : GoString) (urls : List GoString) :
    ∀ st : σ, fetchCalls (downloadImagesLoop env outputDir email apiToken urls st).1 = [] := by
  induction urls with
  | nil => intro st; rfl
  | cons u rest ih =>
    intro st
    simp only [downloadImagesLoop, fetchCalls_append, fetchCalls_downloadImage, ih,
      List.append_nil]

/-- Every pass of the page loop calls `fetchConfluencePage` exactly once, for
its own identifier, whether or not the pass returns. -/
theorem fetchCalls_pagePass {σ : Type} (fuel : Nat) (env : PageEnv σ)
    (backupDir apiURL email apiToken : GoString) (idx : Nat) (pageID : GoString) (st : σ) :
    fetchCalls (pagePass fuel env backupDir apiURL email apiToken idx pageID st).1 =
      [pageID] := by
  unfold pagePass
  dsimp only
  generalize fetchConfluencePage env apiURL email apiToken pageID st = r
  obtain ⟨r1, st1⟩ := r
  cases r1 with
  | error err => rfl
  | ok page =>
    dsimp only
    generalize ensureDir env (env.join backupDir (pageDirName page.Title pageID)) st1 = r2
    obtain ⟨e2, st2⟩ := r2
    cases e2 with
    | some err => rfl
    | none =>
      dsimp only
      have hs := fetchCalls_saveMarkdown env
        (env.join backupDir (pageDirName page.Title pageID)) page.Title page.Value st2
      generalize saveMarkdown env (env.join backupDir (pageDirName page.Title pageID))
        page.Title page.Value st2 = r3 at hs ⊢
      obtain ⟨e3, evs, st3⟩ := r3
      simp only at hs
      cases e3 with
      | some err =>
        simp only [fetchCalls_append, hs]
        rfl
      | none =>
        dsimp only
        unfold downloadImages
        cases findImageURLs fuel page.Value with
        | returned urls =>
          have hd := fetchCalls_downloadImagesLoop env.toEnv
            (env.join backupDir (pageDirName page.Title pageID)) email apiToken urls st3
          simp only [fetchCalls_append, hs, hd]
          rfl
        | panicked =>
          simp only [fetchCalls_append, hs]
          rfl
        | outOfFuel =>
          simp only [fetchCalls_append, hs]
          rfl

/-- The calls of `fetchConfluencePage` made by the page loop are an initial
segment of the identifiers supplied, in their order; they are all of them when
the loop returns. -/
theorem fetchCalls_pageLoop {σ : Type} (fuel : Nat) (env : PageEnv σ)
    (backupDir apiURL email apiToken : GoString) (pageIDs : List GoString) :
    ∀ (idx : Nat) (st : σ),
      fetchCalls (pageLoop fuel env backupDir apiURL email apiToken idx pageIDs st).1 <+:
        pageIDs ∧
      ∀ st' : σ,
        (pageLoop fuel env backupDir apiURL email apiToken idx pageIDs st).2 = .returned st' →
        fetchCalls (pageLoop fuel env backupDir apiURL email apiToken idx pageIDs st).1 =
          pageIDs := by
  induction pageIDs with
  | nil =>
    intro idx st
    exact ⟨List.prefix_refl _, fun _ _ => rfl⟩
  | cons p rest ih =>
    intro idx st
    have hp := fetchCalls_pagePass fuel env backupDir apiURL email apiToken idx p st
    unfold pageLoop
    generalize pagePass fuel env backupDir apiURL email apiToken idx p st = r at hp ⊢
    obtain ⟨evs, out⟩ := r
    simp only at hp
    cases out with
    | returned st1 =>
      obtain ⟨h1, h2⟩ := ih (idx + 1) st1
      simp only [fetchCalls_append, hp, List.singleton_append]
      refine ⟨(List.prefix_cons_inj p).mpr h1, ?_⟩
      intro st' hst'
      rw [h2 st' hst']
    | panicked =>
      simp only [hp]
      exact ⟨⟨rest, rfl⟩, fun _ h => by cases h⟩
    | outOfFuel =>
      simp only [hp]
      exact ⟨⟨rest, rfl⟩, fun _ h => by cases h⟩

/-- A page whose fetch fails gets its two console lines and nothing else: no
directory, no file, no download; and the loop goes on, in full, with the
identifiers that follow, from the state the failed fetch left. -/
theorem pageLoop_cons_of_fetch_error {σ : Type} (fuel : Nat) (env : PageEnv σ)
    (backupDir apiURL email apiToken : GoString) (idx : Nat) (pageID err : GoString)
    (rest : List GoString) (st st' : σ)
    (h : fetchConfluencePage env apiURL email apiToken pageID st = (.error err, st')) :
    pagePass fuel env backupDir apiURL email apiToken idx pageID st =
      ([.printf (str "Fetching page %d: %s\n") [.d ((idx : Int) + 1), .s pageID],
        .fetchConfluencePage pageID,
        .printf (str "Error fetching page %s: %v\n") [.s pageID, .s err]], .returned st') ∧
    pageLoop fuel env backupDir apiURL email apiToken idx (pageID :: rest) st =
      ([.printf (str "Fetching page %d: %s\n") [.d ((idx : Int) + 1), .s pageID],
        .fetchConfluencePage pageID,
        .printf (str "Error fetching page %s: %v\n") [.s pageID, .s err]] ++
        (pageLoop fuel env backupDir apiURL email apiToken (idx + 1) rest st').1,
       (pageLoop fuel env backupDir apiURL email apiToken (idx + 1) rest st').2) := by
  have hp : pagePass fuel env backupDir apiURL email apiToken idx pageID st =
      ([.printf (str "Fetching page %d: %s\n") [.d ((idx : Int) + 1), .s pageID],
        .fetchConfluencePage pageID,
        .printf (str "Error fetching page %s: %v\n") [.s pageID, .s err]], .returned st') := by
    simp only [pagePass, h]
  refine ⟨hp, ?_⟩
  simp only [pageLoop, hp]

/-- C8 fails on the code: with the identifiers `1` and `2` supplied and a page
`1` whose fetch succeeds with the two-paragraph body, the pass for page `1`
creates the directory and the Markdown file and then enters `downloadImages`,
whose scan never returns; the loop makes no further step and
`fetchConfluencePage` is never called for the identifier `2`, whatever the
fuel. -/
theorem pageLoop_twoParagraphs_stops (md : GoString) (fuel : Nat) :
    pageLoop fuel (twoParagraphsSite md) (str "backup") (str "http://x/api") (str "me@x")
        (str "token") 0 [str "1", str "2"] () =
      ([.printf (str "Fetching page %d: %s\n") [.d 1, .s (str "1")],
        .fetchConfluencePage (str "1"),
        .ensureDir (str "backup/My_Page(1)"),
        .saveMarkdown (str "backup/My_Page(1)") (str "My/Page") twoParagraphs,
        .create (str "backup/My_Page(1)/My_Page.md"),
        .writeString (str "backup/My_Page(1)/My_Page.md") md,
        .printf (str "Saved markdown to %s/%s.md\n")
          [.s (str "backup/My_Page(1)"), .s (str "My_Page")],
        .downloadImages (str "backup/My_Page(1)") twoParagraphs], .outOfFuel) ∧
    fetchCalls (pageLoop fuel (twoParagraphsSite md) (str "backup") (str "http://x/api")
      (str "me@x") (str "token") 0 [str "1", str "2"] ()).1 = [str "1"] := by
  have hfetch : fetchConfluencePage (twoParagraphsSite md) (str "http://x/api") (str "me@x")
      (str "token") (str "1") () = (.ok ⟨str "My/Page", twoParagraphs⟩, ()) := by
    simp [fetchConfluencePage, twoParagraphsSite]
  have hdir : (twoParagraphsSite md).join (str "backup") (pageDirName (str "My/Page") (str "1")) =
      str "backup/My_Page(1)" := by
    show str "backup" ++ str "/" ++ pageDirName (str "My/Page") (str "1") = _
    decide
  have hfile : (twoParagraphsSite md).join (str "backup/My_Page(1)")
      (sanitizeFilename (str "My/Page") ++ str ".md") = str "backup/My_Page(1)/My_Page.md" := by
    show str "backup/My_Page(1)" ++ str "/" ++ (sanitizeFilename (str "My/Page") ++ str ".md") = _
    decide
  have hname : sanitizeFilename (str "My/Page") = str "My_Page" := by decide
  have hsave : saveMarkdown (twoParagraphsSite md) (str "backup/My_Page(1)") (str "My/Page")
      twoParagraphs () =
      (none, [.create (str "backup/My_Page(1)/My_Page.md"),
        .writeString (str "backup/My_Page(1)/My_Page.md") md], ()) := by
    simp only [saveMarkdown, htmlToMarkdown, hfile]
    rfl
  have hdl : downloadImages fuel (twoParagraphsSite md).toEnv (str "backup/My_Page(1)")
      twoParagraphs (str "http://x/api") (str "me@x") (str "token") () = .outOfFuel := by
    simp only [downloadImages, findImageURLs_twoParagraphs_outOfFuel]
  have hpass : pagePass fuel (twoParagraphsSite md) (str "backup") (str "http://x/api")
      (str "me@x") (str "token") 0 (str "1") () =
      ([.printf (str "Fetching page %d: %s\n") [.d 1, .s (str "1")],
        .fetchConfluencePage (str "1"),
        .ensureDir (str "backup/My_Page(1)"),
        .saveMarkdown (str "backup/My_Page(1)") (str "My/Page") twoParagraphs,
        .create (str "backup/My_Page(1)/My_Page.md"),
        .writeString (str "backup/My_Page(1)/My_Page.md") md,
        .printf (str "Saved markdown to %s/%s.md\n")
          [.s (str "backup/My_Page(1)"), .s (str "My_Page")],
        .downloadImages (str "backup/My_Page(1)") twoParagraphs], .outOfFuel) := by
    simp only [pagePass, hfetch, hdir, ensureDir, hsave, hdl, hname]
    rfl
  have hloop : pageLoop fuel (twoParagraphsSite md) (str "backup") (str "http://x/api")
      (str "me@x") (str "token") 0 [str "1", str "2"] () =
      ([.printf (str "Fetching page %d: %s\n") [.d 1, .s (str "1")],
        .fetchConfluencePage (str "1"),
        .ensureDir (str "backup/My_Page(1)"),
        .saveMarkdown (str "backup/My_Page(1)") (str "My/Page") twoParagraphs,
        .create (str "backup/My_Page(1)/My_Page.md"),
        .writeString (str "backup/My_Page(1)/My_Page.md") md,
        .printf (str "Saved markdown to %s/%s.md\n")
          [.s (str "backup/My_Page(1)"), .s (str "My_Page")],
        .downloadImages (str "backup/My_Page(1)") twoParagraphs], .outOfFuel) := by
    simp only [pageLoop, hpass]
  refine ⟨hloop, ?_⟩
  rw [hloop]
  rfl

end Confluence
